import Mathlib

/-!
# Ultim809 driver (ultim809.c / ultim809.h)

A shallow embedding of the bus, banking, controller, keyboard-line and cartridge
code of the Ultim809 driver, followed by theorems about it.

Conventions
* bytes and addresses are natural numbers; a value stored in a `UINT8` is
  reduced modulo 256 where the C code narrows it;
* the RAM device is a list of bytes, `ram_get_size` is its length and
  `ram_get_ptr` is index 0 of that list;
* peripherals that live outside the driver (VIA, UART, video, sound) are not
  modelled: an access routed to one of them is reported as `external`.
-/

namespace Ultim809

/-! ## Driver state (ultim809.h) -/

/-- The four fields of `class ultim809_state`. -/
structure ultim809_state where
  card_present : Bool
  controller_sel : Bool
  kb_data : Bool
  kb_clock_prev : Bool
  deriving DecidableEq, Repr

/-! ## Banks of the emulator core -/

/-- The three bank tags used by the address map. -/
inductive BankTag where
  | bank1
  | bank2
  | bank3
  deriving DecidableEq, Repr

/-- Modelled from the spec: the bank object of the emulator core, whose
implementation (`memory_configure_bank`, `memory_set_bank`) is not part of the
driver sources. A bank is a relocatable window into the RAM store: entries
`startentry .. startentry + numentries - 1` are configured, entry `e` starts at
RAM offset `base + stride * (e - startentry)`, and `cur` is the selected entry. -/
structure Bank where
  startentry : Nat
  numentries : Nat
  base : Nat
  stride : Nat
  cur : Nat
  deriving DecidableEq, Repr

/-- A bank on which `memory_configure_bank` has not been called yet. -/
def Bank.unconfigured : Bank :=
  { startentry := 0, numentries := 0, base := 0, stride := 0, cur := 0 }

/-- RAM offset of the first byte of the window the bank currently maps. -/
def Bank.offset (b : Bank) : Nat :=
  b.base + b.stride * (b.cur - b.startentry)

/-- The emulated machine as far as the driver code touches it. -/
structure Machine where
  state : ultim809_state
  ram : List Nat
  bank1 : Bank
  bank2 : Bank
  bank3 : Bank
  stdout : List Char
  deriving DecidableEq, Repr

/-- Size in bytes of the RAM device (`ram_get_size`). -/
def ram_get_size (m : Machine) : Nat :=
  m.ram.length

/-- Bank object behind a tag. -/
def Machine.bank (m : Machine) : BankTag → Bank
  | .bank1 => m.bank1
  | .bank2 => m.bank2
  | .bank3 => m.bank3

/-- Replace the bank object behind a tag. -/
def Machine.setBank (m : Machine) (t : BankTag) (b : Bank) : Machine :=
  match t with
  | .bank1 => { m with bank1 := b }
  | .bank2 => { m with bank2 := b }
  | .bank3 => { m with bank3 := b }

/-- Modelled from the spec: `memory_configure_bank(machine, tag, startentry,
numentries, base, stride)` of the emulator core (not in the driver sources);
`base` is given as an offset from `ram_get_ptr`. -/
def memory_configure_bank (m : Machine) (t : BankTag)
    (startentry numentries base stride : Nat) : Machine :=
  m.setBank t { (m.bank t) with
    startentry := startentry, numentries := numentries, base := base, stride := stride }

/-- Modelled from the spec: `memory_set_bank(machine, tag, entrynum)` of the
emulator core (not in the driver sources). It repoints the bank's window to the
given entry; an entry that was never configured is a fatal error (`none`). -/
def memory_set_bank (m : Machine) (t : BankTag) (entrynum : Nat) : Option Machine :=
  let b := m.bank t
  if b.startentry ≤ entrynum ∧ entrynum < b.startentry + b.numentries then
    some (m.setBank t { b with cur := entrynum })
  else
    none

/-- Modelled from the spec: a read of one byte through a bank's currently
mapped window, done by the emulator core (`none`: outside the RAM store). -/
def bank_read (m : Machine) (t : BankTag) (offset : Nat) : Option Nat :=
  m.ram[(m.bank t).offset + offset]?

/-- Modelled from the spec: a write of one byte through a bank's currently
mapped window, done by the emulator core (`none`: outside the RAM store). -/
def bank_write (m : Machine) (t : BankTag) (offset data : Nat) : Option Machine :=
  if (m.bank t).offset + offset < m.ram.length then
    some { m with ram := m.ram.set ((m.bank t).offset + offset) data }
  else
    none

/-! ## Machine start and driver init -/

/-- Source `MACHINE_START(ultim809)`: configure the three banks over the RAM store and
select entry 0 of each. (`TMS9928A_configure` concerns the video chip only.) -/
def MACHINE_START (m : Machine) : Option Machine :=
  let num_banks := ram_get_size m / 0x4000
  let m := memory_configure_bank m .bank1 0 1 0 0x4000
  let m := memory_configure_bank m .bank2 0 1 0x4000 0x4000
  let m := memory_configure_bank m .bank3 0 num_banks 0 0x4000
  (memory_set_bank m .bank1 0).bind fun m =>
  (memory_set_bank m .bank2 0).bind fun m =>
  memory_set_bank m .bank3 0

/-- Source `DRIVER_INIT(ultim809)`: initial values of the driver state. (The terminal
settings changed by `keybuffering` / `keyecho` are host state.) -/
def DRIVER_INIT (_s : ultim809_state) : ultim809_state :=
  { card_present := false, controller_sel := true, kb_data := true, kb_clock_prev := true }

/-! ## Diagnostic port -/

/-- Conversion `%02x` of `printf` applied to an unsigned value: lowercase
hexadecimal digits, padded on the left with `0` to a width of at least two. -/
def printf_02x (v : Nat) : List Char :=
  List.leftpad 2 '0' (Nat.toDigits 16 v)

/-- Source `WRITE8_HANDLER(debug_print_byte_hex)`: `printf("%02x\n", data)` with
`data` a `UINT8`; the text is appended to the host's standard output. -/
def debug_print_byte_hex (m : Machine) (data : Nat) : Machine :=
  { m with stdout := m.stdout ++ (printf_02x (data % 256) ++ ['\n']) }

/-! ## Controllers -/

/-- Source `ultim809_read_controller`: `raw` is what `input_port_read` returned for
the port; it is narrowed to the `UINT8 buttons`. -/
def ultim809_read_controller (s : ultim809_state) (raw : Nat) : Nat :=
  let buttons := raw % 256
  let portval :=
    if s.controller_sel then
      (buttons &&& 0x3F) % 256
    else
      ((buttons &&& 0x0F) ||| ((buttons &&& 0xC0) >>> 2)) % 256
  (portval ||| 0xC0) % 256

/-- Source `READ8_HANDLER(flipflop_sel_set)`: returns 0 and the new state. -/
def flipflop_sel_set (s : ultim809_state) : Nat × ultim809_state :=
  (0, { s with controller_sel := true })

/-- Source `READ8_HANDLER(flipflop_sel_clear)`: returns 0 and the new state. -/
def flipflop_sel_clear (s : ultim809_state) : Nat × ultim809_state :=
  (0, { s with controller_sel := false })

/-! ## VIA callbacks -/

/-- Source `WRITE8_DEVICE_HANDLER(via_pa_w)`: change bank3's base address. `data` is a
`UINT8`. With `num_banks = 0` the C remainder is a division by zero (`none`). -/
def via_pa_w (m : Machine) (data : Nat) : Option Machine :=
  let num_banks := ram_get_size m / 16384
  if num_banks = 0 then
    none
  else
    let new_bank := ((data % 256) % num_banks) % 256
    memory_set_bank m .bank3 new_bank

/-- The C expression `~x` on a 32-bit `int`, as an unsigned bit pattern. -/
def bitnot32 (x : Nat) : Nat :=
  (2 ^ 32 - 1) - x % 2 ^ 32

/-- Source `READ8_DEVICE_HANDLER(via_pb_r)`: the `UINT8 portval` starts at 0xFF;
bit 4 is cleared when a cartridge was loaded, bit 7 when `kb_data` is false. -/
def via_pb_r (s : ultim809_state) : Nat :=
  let portval := 0xFF
  let portval := if s.card_present then (portval &&& bitnot32 (1 <<< 4)) % 256 else portval
  let portval := if !s.kb_data then (portval &&& bitnot32 (1 <<< 7)) % 256 else portval
  portval

/-! ## Keyboard lines -/

/-- What `keyboard_clock_w` does to its collaborators. -/
inductive KbAction where
  | device_yield
  | write_ca1 (level : Int)
  deriving DecidableEq, Repr

/-- Source `keyboard_clock_w(device, level)` (under `EMULATE_KEYBOARD`): returns the new driver state, the value
of the local `falling_edge`, and the calls made on the keyboard and the VIA. -/
def keyboard_clock_w (s : ultim809_state) (level : Int) :
    ultim809_state × Bool × List KbAction :=
  let falling_edge := s.kb_clock_prev && !(decide (level ≠ 0))
  let s := { s with kb_clock_prev := decide (level ≠ 0) }
  let yielded := if falling_edge then [KbAction.device_yield] else []
  (s, falling_edge, yielded ++ [KbAction.write_ca1 level])

/-- Source `keyboard_data_w(device, level)` (under `EMULATE_KEYBOARD`). -/
def keyboard_data_w (s : ultim809_state) (level : Int) : ultim809_state :=
  { s with kb_data := decide (level ≠ 0) }

/-- Feed a sequence of clock-line levels to `keyboard_clock_w`, one call per
level, and collect the `falling_edge` value of each call. -/
def clock_trace : ultim809_state → List Int → List Bool
  | _, [] => []
  | s, level :: rest =>
    let r := keyboard_clock_w s level
    r.2.1 :: clock_trace r.1 rest

/-! ## Cartridge -/

/-- Result codes of an image load. -/
inductive image_init_result where
  | IMAGE_INIT_PASS
  | IMAGE_INIT_FAIL
  deriving DecidableEq, Repr

/-- Outcome of code that writes into the RAM store: either it completes with a
result, or it writes `outside` bytes at addresses that are not part of the
store, which C leaves undefined. -/
inductive Outcome (α : Type) where
  | ok (a : α)
  | buffer_overrun (outside : Nat)
  deriving DecidableEq, Repr

/-- Library `memcpy(dst, src, n)` into the RAM store, byte by byte from the
lowest address; `dst` is an offset from `ram_get_ptr`. The first byte whose
address is not inside the store makes the copy an overrun by that byte and all
the bytes after it. -/
def memcpy (ram : List Nat) (dst : Nat) : List Nat → Outcome (List Nat)
  | [] => .ok ram
  | b :: rest =>
    if dst < ram.length then
      memcpy (ram.set dst b) (dst + 1) rest
    else
      .buffer_overrun (rest.length + 1)

/-- Source `DEVICE_IMAGE_LOAD(ultim809_cart)`: copy the image into RAM starting
at address 0x0100, set `card_present`, return `IMAGE_INIT_PASS`. The source
compares the image length with nothing before the copy. -/
def ultim809_cart (m : Machine) (image : List Nat) : Outcome (image_init_result × Machine) :=
  match memcpy m.ram 0x100 image with
  | .buffer_overrun outside => .buffer_overrun outside
  | .ok ram =>
    let m := { m with ram := ram }
    let m := { m with state := { m.state with card_present := true } }
    .ok (.IMAGE_INIT_PASS, m)

/-! ## Address map and bus accesses -/

/-- Read handlers named in `ultim809_map`. -/
inductive ReadHandler where
  | rambank (t : BankTag)
  | via_r
  | ultim809_ins8250_r
  | TMS9928A_vram_r
  | TMS9928A_register_r
  | ay8910_r
  | flipflop_sel_clear
  | flipflop_sel_set
  | rom
  deriving DecidableEq, Repr

/-- Write handlers named in `ultim809_map`. -/
inductive WriteHandler where
  | rambank (t : BankTag)
  | via_w
  | ins8250_w
  | TMS9928A_vram_w
  | TMS9928A_register_w
  | ay8910_address_w
  | ay8910_data_w
  | debug_print_byte_hex
  deriving DecidableEq, Repr

/-- One `AM_RANGE(addrstart, addrend)` line; both bounds are inclusive. -/
structure MapEntry where
  addrstart : Nat
  addrend : Nat
  read : Option ReadHandler
  write : Option WriteHandler
  deriving DecidableEq, Repr

/-- The address belongs to the entry's range. -/
def MapEntry.contains (e : MapEntry) (addr : Nat) : Bool :=
  decide (e.addrstart ≤ addr) && decide (addr ≤ e.addrend)

/-- Source `ADDRESS_MAP_START(ultim809_map, AS_PROGRAM, 8)`, with `UART_USES_STDIN`
set to 1 as in the source. -/
def ultim809_map : List MapEntry :=
  [ { addrstart := 0x0000, addrend := 0x3FFF,
      read := some (.rambank .bank1), write := some (.rambank .bank1) },
    { addrstart := 0x4000, addrend := 0x7FFF,
      read := some (.rambank .bank2), write := some (.rambank .bank2) },
    { addrstart := 0x8000, addrend := 0xBFFF,
      read := some (.rambank .bank3), write := some (.rambank .bank3) },
    { addrstart := 0xC000, addrend := 0xC3FF,
      read := some .via_r, write := some .via_w },
    { addrstart := 0xC400, addrend := 0xC7FF,
      read := some .ultim809_ins8250_r, write := some .ins8250_w },
    { addrstart := 0xCC00, addrend := 0xCC00,
      read := some .TMS9928A_vram_r, write := some .TMS9928A_vram_w },
    { addrstart := 0xCC01, addrend := 0xCC01,
      read := some .TMS9928A_register_r, write := some .TMS9928A_register_w },
    { addrstart := 0xCC02, addrend := 0xCC02,
      read := some .ay8910_r, write := some .ay8910_address_w },
    { addrstart := 0xCC03, addrend := 0xCC03,
      read := none, write := some .ay8910_data_w },
    { addrstart := 0xCC06, addrend := 0xCC06,
      read := some .flipflop_sel_clear, write := none },
    { addrstart := 0xCC0E, addrend := 0xCC0E,
      read := some .flipflop_sel_set, write := none },
    { addrstart := 0xCD00, addrend := 0xCD01,
      read := none, write := some .debug_print_byte_hex },
    { addrstart := 0xE000, addrend := 0xFFFF,
      read := some .rom, write := none } ]

/-- All entries of the map whose range contains the address. -/
def map_entries_at (addr : Nat) : List MapEntry :=
  ultim809_map.filter fun e => e.contains addr

/-- Modelled from the spec: address decoding of the emulator core, which routes
an access to the entry of the map whose range contains the address. -/
def map_lookup (addr : Nat) : Option MapEntry :=
  ultim809_map.find? fun e => e.contains addr

/-- Outcome of a CPU read on the program address space. -/
inductive ReadResult where
  | value (v : Nat) (m : Machine)
  | external (h : ReadHandler) (offset : Nat)
  | unmapped
  | outside_ram
  deriving DecidableEq, Repr

/-- Outcome of a CPU write on the program address space. -/
inductive WriteResult where
  | done (m : Machine)
  | external (h : WriteHandler) (offset data : Nat)
  | unmapped
  | outside_ram
  deriving DecidableEq, Repr

/-- Modelled from the spec: a CPU read of one byte at a 16-bit address, routed
by the emulator core through `ultim809_map`. Handlers of the driver are run;
handlers of other devices and the ROM region are reported as `external` with
the offset the handler receives. -/
def program_read (m : Machine) (addr : Nat) : ReadResult :=
  match map_lookup addr with
  | none => .unmapped
  | some e =>
    match e.read with
    | none => .unmapped
    | some (.rambank t) =>
      match bank_read m t (addr - e.addrstart) with
      | some v => .value v m
      | none => .outside_ram
    | some .flipflop_sel_clear =>
      let r := flipflop_sel_clear m.state
      .value r.1 { m with state := r.2 }
    | some .flipflop_sel_set =>
      let r := flipflop_sel_set m.state
      .value r.1 { m with state := r.2 }
    | some h => .external h (addr - e.addrstart)

/-- Modelled from the spec: a CPU write of one byte at a 16-bit address, routed
by the emulator core through `ultim809_map`. Writes to an entry without a
write handler (the ROM, the flip-flop ports) go nowhere. -/
def program_write (m : Machine) (addr data : Nat) : WriteResult :=
  match map_lookup addr with
  | none => .unmapped
  | some e =>
    match e.write with
    | none => .unmapped
    | some (.rambank t) =>
      match bank_write m t (addr - e.addrstart) data with
      | some m => .done m
      | none => .outside_ram
    | some .debug_print_byte_hex => .done (debug_print_byte_hex m data)
    | some h => .external h (addr - e.addrstart) data

/-- The byte a read delivered to the CPU, when the driver produced one. -/
def ReadResult.byte : ReadResult → Option Nat
  | .value v _ => some v
  | _ => none

/-- Bank layout put in place by `MACHINE_START`: bank1 fixed at RAM offset
0x0000, bank2 fixed at 0x4000, bank3 with one entry per 16 KB page of RAM. -/
def Machine.configured (m : Machine) : Prop :=
  m.bank1 = ⟨0, 1, 0, 0x4000, 0⟩ ∧
  m.bank2 = ⟨0, 1, 0x4000, 0x4000, 0⟩ ∧
  m.bank3.startentry = 0 ∧
  m.bank3.numentries = ram_get_size m / 0x4000 ∧
  m.bank3.base = 0 ∧
  m.bank3.stride = 0x4000

/-- A machine after `MACHINE_START`: the banks are configured and bank3
points at one of its configured entries. -/
def Machine.started (m : Machine) : Prop :=
  m.configured ∧ m.bank3.cur < m.bank3.numentries

instance (m : Machine) : Decidable m.configured := by
  unfold Machine.configured
  infer_instance

instance (m : Machine) : Decidable m.started := by
  unfold Machine.started
  infer_instance

/-- The machine with the default 512K of RAM, zero-filled, after `DRIVER_INIT`
and before `MACHINE_START`. -/
def machine_512k : Machine :=
  { state := DRIVER_INIT ⟨false, false, false, false⟩,
    ram := List.replicate 524288 0,
    bank1 := Bank.unconfigured, bank2 := Bank.unconfigured, bank3 := Bank.unconfigured,
    stdout := [] }

/-- The 512K machine after `MACHINE_START`: bank3 has 32 entries. -/
def machine_512k_started : Machine :=
  { machine_512k with
    bank1 := ⟨0, 1, 0, 0x4000, 0⟩,
    bank2 := ⟨0, 1, 0x4000, 0x4000, 0⟩,
    bank3 := ⟨0, 32, 0, 0x4000, 0⟩ }

/-- The ranges of a map are written in increasing order, each one ending
before the next one starts. -/
def ranges_ascending (l : List MapEntry) : Prop :=
  l.Pairwise fun a b => a.addrend < b.addrstart

/-! ## Specification-side vocabulary -/

/-- Specification side: the lowercase hexadecimal digit of a value below 16. -/
def spec_hex_digit (d : Nat) : Char :=
  "0123456789abcdef".toList.getD d '?'

/-- Number of falling-edge events in a trace of `falling_edge` values. -/
def falling_edges (trace : List Bool) : Nat :=
  trace.count true

/-! ## Controller multiplexer -/

/-- The controller read looks at the driver state through `controller_sel`
only. -/
theorem read_controller_depends_on_sel (s : ultim809_state) (raw : Nat) :
    ultim809_read_controller s raw
      = ultim809_read_controller ⟨false, s.controller_sel, false, false⟩ raw :=
  rfl

set_option maxRecDepth 100000 in
/-- Both encodings, checked on each of the 256 button values. -/
theorem read_controller_table : ∀ raw : Fin 256,
    ultim809_read_controller ⟨false, true, false, false⟩ raw.val
        = (raw.val &&& 0x3F) ||| 0xC0 ∧
    ultim809_read_controller ⟨false, false, false, false⟩ raw.val
        = ((raw.val &&& 0x0F) ||| ((raw.val &&& 0xC0) >>> 2)) ||| 0xC0 := by
  decide

/-- C2: for every 8-bit raw button value, `ultim809_read_controller` returns
`(raw & 0x3F) | 0xC0` when `controller_sel` is true and
`((raw & 0x0F) | ((raw & 0xC0) >> 2)) | 0xC0` when it is false; the `UINT8`
narrowings of the C code never change the value. -/
theorem ultim809_read_controller_encoding (s : ultim809_state) (raw : Nat)
    (hraw : raw < 256) :
    (s.controller_sel = true →
      ultim809_read_controller s raw = (raw &&& 0x3F) ||| 0xC0) ∧
    (s.controller_sel = false →
      ultim809_read_controller s raw
        = ((raw &&& 0x0F) ||| ((raw &&& 0xC0) >>> 2)) ||| 0xC0) := by
  have key := read_controller_table ⟨raw, hraw⟩
  rw [read_controller_depends_on_sel]
  constructor
  · intro hsel
    rw [hsel]
    exact key.1
  · intro hsel
    rw [hsel]
    exact key.2

/-- C2 at the state left by `DRIVER_INIT` with the flip-flop cleared, raw value
0xA5: the unselected encoding gives 0xE5. -/
theorem ultim809_read_controller_encoding_witness :
    (0xA5 < 256) ∧
    ultim809_read_controller ⟨false, false, true, true⟩ 0xA5
      = ((0xA5 &&& 0x0F) ||| ((0xA5 &&& 0xC0) >>> 2)) ||| 0xC0 :=
  ⟨by decide,
   (ultim809_read_controller_encoding ⟨false, false, true, true⟩ 0xA5 (by decide)).2 rfl⟩

/-! ## Controller-select flip-flop -/

/-- C3: for every machine state, a read of 0xCC06 returns 0 and leaves
`controller_sel = false`, a read of 0xCC0E returns 0 and leaves
`controller_sel = true`, whatever it was before; neither read changes
`card_present`, `kb_data`, `kb_clock_prev` (nor RAM, banks or output). -/
theorem flipflop_reads (m : Machine) :
    (∃ m1, program_read m 0xCC06 = .value 0 m1 ∧
      m1.state.controller_sel = false ∧
      m1.state.card_present = m.state.card_present ∧
      m1.state.kb_data = m.state.kb_data ∧
      m1.state.kb_clock_prev = m.state.kb_clock_prev ∧
      m1.ram = m.ram ∧ m1.bank1 = m.bank1 ∧ m1.bank2 = m.bank2 ∧
      m1.bank3 = m.bank3 ∧ m1.stdout = m.stdout) ∧
    (∃ m2, program_read m 0xCC0E = .value 0 m2 ∧
      m2.state.controller_sel = true ∧
      m2.state.card_present = m.state.card_present ∧
      m2.state.kb_data = m.state.kb_data ∧
      m2.state.kb_clock_prev = m.state.kb_clock_prev ∧
      m2.ram = m.ram ∧ m2.bank1 = m.bank1 ∧ m2.bank2 = m.bank2 ∧
      m2.bank3 = m.bank3 ∧ m2.stdout = m.stdout) :=
  ⟨⟨{ m with state := { m.state with controller_sel := false } },
      rfl, rfl, rfl, rfl, rfl, rfl, rfl, rfl, rfl, rfl⟩,
   ⟨{ m with state := { m.state with controller_sel := true } },
      rfl, rfl, rfl, rfl, rfl, rfl, rfl, rfl, rfl, rfl⟩⟩

/-! ## Keyboard clock line -/

/-- C6 as stated fails: from the state left by `DRIVER_INIT`, the sequence
low, low yields one falling-edge event (on the first value), not zero. -/
theorem clock_low_low_not_zero :
    (DRIVER_INIT ⟨false, false, false, false⟩).kb_clock_prev = true ∧
    clock_trace (DRIVER_INIT ⟨false, false, false, false⟩) [0, 0] = [true, false] ∧
    falling_edges (clock_trace (DRIVER_INIT ⟨false, false, false, false⟩) [0, 0]) = 1 ∧
    falling_edges (clock_trace (DRIVER_INIT ⟨false, false, false, false⟩) [0, 0]) ≠ 0 := by
  decide

/-- C6 amended: from the state left by `DRIVER_INIT` (`kb_clock_prev = true`),
high, low yields exactly one falling edge (at the second value); low, low
yields exactly one (at the first value, since the stored previous level starts
high); high, high, low, low, high yields exactly one, at the third value. -/
theorem clock_sequences_from_init (s : ultim809_state) :
    (DRIVER_INIT s).kb_clock_prev = true ∧
    clock_trace (DRIVER_INIT s) [1, 0] = [false, true] ∧
    falling_edges (clock_trace (DRIVER_INIT s) [1, 0]) = 1 ∧
    clock_trace (DRIVER_INIT s) [0, 0] = [true, false] ∧
    falling_edges (clock_trace (DRIVER_INIT s) [0, 0]) = 1 ∧
    clock_trace (DRIVER_INIT s) [1, 1, 0, 0, 1] = [false, false, true, false, false] ∧
    falling_edges (clock_trace (DRIVER_INIT s) [1, 1, 0, 0, 1]) = 1 := by
  exact ⟨rfl, rfl, rfl, rfl, rfl, rfl, rfl⟩

/-! ## Port B of the VIA -/

/-- C7 as stated fails: in the state left by `DRIVER_INIT` (`kb_data` true,
no cartridge) the port-B read is 0xFF, so bit 7 is set, not clear; with
`kb_data` false the read is 0x7F, so bit 7 is clear, not set. -/
theorem via_pb_r_not_inverted :
    (DRIVER_INIT ⟨false, false, false, false⟩).kb_data = true ∧
    via_pb_r (DRIVER_INIT ⟨false, false, false, false⟩) = 0xFF ∧
    (via_pb_r (DRIVER_INIT ⟨false, false, false, false⟩)).testBit 7 = true ∧
    (via_pb_r (DRIVER_INIT ⟨false, false, false, false⟩)).testBit 7 ≠ false ∧
    via_pb_r (keyboard_data_w (DRIVER_INIT ⟨false, false, false, false⟩) 0) = 0x7F ∧
    (via_pb_r (keyboard_data_w (DRIVER_INIT ⟨false, false, false, false⟩) 0)).testBit 7
      = false := by
  decide

/-- C7 amended: for every machine state, bit 7 of the port-B read `via_pb_r`
equals the keyboard data line: set when `kb_data` is true (idle-high), clear
when `kb_data` is false. The line is passed through, not inverted. -/
theorem via_pb_r_bit7 (s : ultim809_state) :
    (via_pb_r s).testBit 7 = s.kb_data := by
  obtain ⟨cp, sel, kd, kc⟩ := s
  cases cp <;> cases sel <;> cases kd <;> cases kc <;> decide

/-! ## Diagnostic port -/

set_option maxRecDepth 100000 in
/-- The `%02x` conversion of each byte value is its two hexadecimal digits. -/
theorem printf_02x_byte : ∀ v : Fin 256,
    printf_02x v.val = [spec_hex_digit (v.val / 16), spec_hex_digit (v.val % 16)] := by
  decide

/-- C10: for every 8-bit value written to the diagnostic port (0xCD00 or
0xCD01), the write is handled by `debug_print_byte_hex`, which appends exactly
one record to the output: the value as two lowercase hexadecimal digits
(zero-padded below 0x10) followed by a newline; nothing else changes. -/
theorem debug_print_byte_hex_record (m : Machine) (data : Nat) (hdata : data < 256) :
    program_write m 0xCD00 data = .done (debug_print_byte_hex m data) ∧
    program_write m 0xCD01 data = .done (debug_print_byte_hex m data) ∧
    (debug_print_byte_hex m data).stdout
      = m.stdout ++ [spec_hex_digit (data / 16), spec_hex_digit (data % 16), '\n'] ∧
    (debug_print_byte_hex m data).state = m.state ∧
    (debug_print_byte_hex m data).ram = m.ram ∧
    (debug_print_byte_hex m data).bank1 = m.bank1 ∧
    (debug_print_byte_hex m data).bank2 = m.bank2 ∧
    (debug_print_byte_hex m data).bank3 = m.bank3 := by
  refine ⟨rfl, rfl, ?_, rfl, rfl, rfl, rfl, rfl⟩
  have key := printf_02x_byte ⟨data, hdata⟩
  simp only [debug_print_byte_hex, Nat.mod_eq_of_lt hdata]
  rw [key]
  rfl

/-- C10 at the value 0xAB on an empty output: the record is `ab` followed by
a newline. -/
theorem debug_print_byte_hex_record_witness :
    (0xAB < 256) ∧
    (debug_print_byte_hex
        ⟨⟨false, true, true, true⟩, [], Bank.unconfigured, Bank.unconfigured,
          Bank.unconfigured, []⟩ 0xAB).stdout = ['a', 'b', '\n'] :=
  ⟨by decide,
   (debug_print_byte_hex_record
      ⟨⟨false, true, true, true⟩, [], Bank.unconfigured, Bank.unconfigured,
        Bank.unconfigured, []⟩ 0xAB (by decide)).2.2.1.trans (by decide)⟩

/-! ## Address map -/

/-- In a map with ascending ranges, at most one entry contains an address. -/
theorem entries_at_le_one (l : List MapEntry) (h : ranges_ascending l) (addr : Nat) :
    (l.filter fun e => e.contains addr).length ≤ 1 := by
  induction l with
  | nil => simp
  | cons a t ih =>
    unfold ranges_ascending at h ih
    rw [List.pairwise_cons] at h
    by_cases hc : a.contains addr = true
    · have hnil : (t.filter fun e => e.contains addr) = [] := by
        rw [List.filter_eq_nil_iff]
        intro b hb hbc
        have hlt := h.1 b hb
        simp only [MapEntry.contains, Bool.and_eq_true, decide_eq_true_eq] at hc hbc
        omega
      simp only [List.filter_cons, hc, if_true, hnil]
      simp
    · simp only [List.filter_cons, hc]
      exact ih h.2

/-- The ranges of `ultim809_map` are ascending. -/
theorem ultim809_map_ascending : ranges_ascending ultim809_map := by
  unfold ranges_ascending ultim809_map
  decide

/-- Two entries with ascending ranges share no address. -/
theorem ascending_disjoint (a b : MapEntry) (h : a.addrend < b.addrstart) (addr : Nat) :
    ¬ (a.contains addr = true ∧ b.contains addr = true) := by
  simp only [MapEntry.contains, Bool.and_eq_true, decide_eq_true_eq]
  omega

/-- C8: for every address, at most one entry of `ultim809_map` (ranges taken
with the inclusive bounds written in the map) contains it: the ranges are
pairwise disjoint, so an access is routed to at most one backing store or
handler. The ranges are 0x0000-0x3FFF, 0x4000-0x7FFF, 0x8000-0xBFFF,
0xC000-0xC3FF, 0xC400-0xC7FF, 0xCC00, 0xCC01, 0xCC02, 0xCC03, 0xCC06, 0xCC0E,
0xCD00-0xCD01 and 0xE000-0xFFFF. -/
theorem ultim809_map_disjoint :
    (∀ addr : Nat, (map_entries_at addr).length ≤ 1) ∧
    (ultim809_map.Pairwise fun a b =>
      ∀ addr : Nat, ¬ (a.contains addr = true ∧ b.contains addr = true)) ∧
    ultim809_map.map (fun e => (e.addrstart, e.addrend))
      = [(0x0000, 0x3FFF), (0x4000, 0x7FFF), (0x8000, 0xBFFF), (0xC000, 0xC3FF),
         (0xC400, 0xC7FF), (0xCC00, 0xCC00), (0xCC01, 0xCC01), (0xCC02, 0xCC02),
         (0xCC03, 0xCC03), (0xCC06, 0xCC06), (0xCC0E, 0xCC0E), (0xCD00, 0xCD01),
         (0xE000, 0xFFFF)] ∧
    ultim809_map.map (fun e => (e.read, e.write))
      = [(some (.rambank .bank1), some (.rambank .bank1)),
         (some (.rambank .bank2), some (.rambank .bank2)),
         (some (.rambank .bank3), some (.rambank .bank3)),
         (some .via_r, some .via_w),
         (some .ultim809_ins8250_r, some .ins8250_w),
         (some .TMS9928A_vram_r, some .TMS9928A_vram_w),
         (some .TMS9928A_register_r, some .TMS9928A_register_w),
         (some .ay8910_r, some .ay8910_address_w),
         (none, some .ay8910_data_w),
         (some .flipflop_sel_clear, none),
         (some .flipflop_sel_set, none),
         (none, some .debug_print_byte_hex),
         (some .rom, none)] := by
  refine ⟨fun addr => entries_at_le_one ultim809_map ultim809_map_ascending addr, ?_, rfl, rfl⟩
  exact List.Pairwise.imp (fun {a b} h => ascending_disjoint a b h) ultim809_map_ascending

/-! ## Cartridge loader -/

/-- A copy that completes keeps the size of the store. -/
theorem memcpy_length (src : List Nat) : ∀ (ram ram1 : List Nat) (dst : Nat),
    memcpy ram dst src = .ok ram1 → ram1.length = ram.length := by
  induction src with
  | nil =>
    intro ram ram1 dst h
    simp only [memcpy] at h
    injection h with h
    rw [← h]
  | cons b rest ih =>
    intro ram ram1 dst h
    simp only [memcpy] at h
    split at h
    · rw [ih (ram.set dst b) ram1 (dst + 1) h, List.length_set]
    · exact Outcome.noConfusion h

/-- A copy whose destination range lies inside the store completes: the range
receives the source bytes and every other byte keeps its value. -/
theorem memcpy_fits (src : List Nat) : ∀ (ram : List Nat) (dst : Nat),
    dst + src.length ≤ ram.length →
    ∃ ram1, memcpy ram dst src = .ok ram1 ∧
      (∀ a : Nat, a < dst ∨ dst + src.length ≤ a → ram1[a]? = ram[a]?) ∧
      (∀ i : Nat, i < src.length → ram1[dst + i]? = src[i]?) := by
  induction src with
  | nil =>
    intro ram dst _
    exact ⟨ram, rfl, fun _ _ => rfl, fun i hi => absurd hi (Nat.not_lt_zero i)⟩
  | cons b rest ih =>
    intro ram dst hfit
    simp only [List.length_cons] at hfit
    have hdst : dst < ram.length := by omega
    obtain ⟨ram1, hcopy, hout, hin⟩ :=
      ih (ram.set dst b) (dst + 1) (by rw [List.length_set]; omega)
    refine ⟨ram1, ?_, ?_, ?_⟩
    · simp only [memcpy, if_pos hdst]
      exact hcopy
    · intro a ha
      simp only [List.length_cons] at ha
      rw [hout a (by omega)]
      exact List.getElem?_set_ne (by omega)
    · intro i hi
      simp only [List.length_cons] at hi
      cases i with
      | zero =>
        rw [Nat.add_zero, hout dst (by omega)]
        simp only [List.getElem?_cons_zero]
        exact List.getElem?_set_self hdst
      | succ j =>
        have e : dst + (j + 1) = dst + 1 + j := by omega
        rw [e, hin j (by omega)]
        simp

/-- A non-empty copy whose destination range does not lie inside the store is an
overrun, by as many bytes as have their address outside the store. -/
theorem memcpy_overrun (src : List Nat) : ∀ (ram : List Nat) (dst : Nat),
    src ≠ [] → ram.length < dst + src.length →
    memcpy ram dst src = .buffer_overrun (dst + src.length - max dst ram.length) := by
  induction src with
  | nil => intro ram dst hne _; exact absurd rfl hne
  | cons b rest ih =>
    intro ram dst _ hlong
    simp only [List.length_cons] at hlong
    simp only [memcpy, List.length_cons]
    by_cases hdst : dst < ram.length
    · rw [if_pos hdst]
      have hrest : rest ≠ [] := by
        intro hnil
        rw [hnil] at hlong
        simp only [List.length_nil] at hlong
        omega
      rw [ih (ram.set dst b) (dst + 1) hrest (by rw [List.length_set]; omega),
        List.length_set]
      congr 1
      omega
    · rw [if_neg hdst]
      congr 1
      omega

/-- With `card_present` set, bit 4 of the port-B read is clear. -/
theorem via_pb_r_bit4 (s : ultim809_state) (h : s.card_present = true) :
    (via_pb_r s).testBit 4 = false := by
  obtain ⟨cp, sel, kd, kc⟩ := s
  simp only at h
  subst h
  cases sel <;> cases kd <;> cases kc <;> decide

/-- The default RAM size. -/
theorem ram_get_size_machine_512k : ram_get_size machine_512k = 524288 := by
  unfold ram_get_size machine_512k
  exact List.length_replicate 524288 0

/-- The loader never returns `IMAGE_INIT_FAIL`: the source has no such path. -/
theorem ultim809_cart_never_fails (m m1 : Machine) (image : List Nat) :
    ultim809_cart m image ≠ .ok (.IMAGE_INIT_FAIL, m1) := by
  intro h
  unfold ultim809_cart at h
  split at h
  · exact Outcome.noConfusion h
  · injection h with h
    injection h with h _
    exact image_init_result.noConfusion h

/-- An image longer than ramSize - 0x100 makes the copy of the loader run past
the end of the RAM store. -/
theorem ultim809_cart_overrun (m : Machine) (image : List Nat)
    (hbig : image.length > ram_get_size m - 0x100) :
    ultim809_cart m image
      = .buffer_overrun (0x100 + image.length - max 0x100 (ram_get_size m)) := by
  have hne : image ≠ [] := by
    intro hnil
    rw [hnil] at hbig
    simp only [List.length_nil] at hbig
    omega
  have hlong : m.ram.length < 0x100 + image.length := by
    unfold ram_get_size at hbig
    omega
  unfold ultim809_cart
  rw [memcpy_overrun image m.ram 0x100 hne hlong]
  rfl

/-- C4: for every cartridge image of length L that fits (L <= ramSize - 0x100),
`ultim809_cart` succeeds, leaves RAM[0x100 + i] = image[i] for every i < L,
leaves every RAM byte outside [0x100, 0x100 + L) unchanged, and sets
`card_present`, so that a following port-B read `via_pb_r` has bit 4 cleared. -/
theorem ultim809_cart_fits (m : Machine) (image : List Nat)
    (hfit : image.length ≤ ram_get_size m - 0x100) :
    ∃ m1, ultim809_cart m image = .ok (.IMAGE_INIT_PASS, m1) ∧
      (∀ (i : Nat) (hi : i < image.length), m1.ram[0x100 + i]? = some image[i]) ∧
      (∀ a : Nat, a < 0x100 ∨ 0x100 + image.length ≤ a → m1.ram[a]? = m.ram[a]?) ∧
      m1.ram.length = m.ram.length ∧
      m1.state.card_present = true ∧
      m1.state.controller_sel = m.state.controller_sel ∧
      m1.state.kb_data = m.state.kb_data ∧
      m1.state.kb_clock_prev = m.state.kb_clock_prev ∧
      (via_pb_r m1.state).testBit 4 = false := by
  have hcopy : ∃ ram1, memcpy m.ram 0x100 image = .ok ram1 ∧
      (∀ a : Nat, a < 0x100 ∨ 0x100 + image.length ≤ a → ram1[a]? = m.ram[a]?) ∧
      (∀ i : Nat, i < image.length → ram1[0x100 + i]? = image[i]?) := by
    cases image with
    | nil => exact ⟨m.ram, rfl, fun _ _ => rfl, fun i hi => absurd hi (Nat.not_lt_zero i)⟩
    | cons b rest =>
      apply memcpy_fits
      unfold ram_get_size at hfit
      simp only [List.length_cons] at hfit ⊢
      omega
  obtain ⟨ram1, hok, hout, hin⟩ := hcopy
  refine ⟨{ m with ram := ram1, state := { m.state with card_present := true } },
    ?_, ?_, hout, memcpy_length image m.ram ram1 0x100 hok, rfl, rfl, rfl, rfl,
    via_pb_r_bit4 _ rfl⟩
  · unfold ultim809_cart
    rw [hok]
  · intro i hi
    show ram1[0x100 + i]? = some image[i]
    rw [hin i hi]
    exact List.getElem?_eq_getElem hi

/-- C4 on the 512K machine with the 3-byte image 7, 8, 9: the load succeeds and
the last byte lands at 0x102. -/
theorem ultim809_cart_fits_witness :
    ([7, 8, 9].length ≤ ram_get_size machine_512k - 0x100) ∧
    ∃ m1, ultim809_cart machine_512k [7, 8, 9] = .ok (.IMAGE_INIT_PASS, m1) ∧
      m1.ram[0x100 + 2]? = some 9 := by
  have hfit : [7, 8, 9].length ≤ ram_get_size machine_512k - 0x100 := by
    rw [ram_get_size_machine_512k]
    decide
  obtain ⟨m1, hok, hin, _⟩ := ultim809_cart_fits machine_512k [7, 8, 9] hfit
  exact ⟨hfit, m1, hok, hin 2 (by decide)⟩

/-- C5 fails on the code: on the 512K machine an image of 524288 bytes is too
long (524288 > 524288 - 0x100), and the loader does not reject it. Its copy has
no length test and writes the last 256 bytes of the image past the end of the
RAM store; no path of the loader returns `IMAGE_INIT_FAIL`. -/
theorem oversize_image_overruns :
    (List.replicate 524288 1).length > ram_get_size machine_512k - 0x100 ∧
    ultim809_cart machine_512k (List.replicate 524288 1) = .buffer_overrun 256 ∧
    (∀ m1 : Machine,
      ultim809_cart machine_512k (List.replicate 524288 1) ≠ .ok (.IMAGE_INIT_FAIL, m1)) := by
  have hbig : (List.replicate 524288 1).length > ram_get_size machine_512k - 0x100 := by
    rw [ram_get_size_machine_512k, List.length_replicate]
    decide
  refine ⟨hbig, ?_, fun m1 => ultim809_cart_never_fails machine_512k m1 _⟩
  rw [ultim809_cart_overrun machine_512k _ hbig, ram_get_size_machine_512k,
    List.length_replicate]
  rfl

/-! ## Banked memory -/

/-- Addresses 0x0000-0x3FFF decode to the bank1 entry. -/
theorem map_lookup_bank1 (a : Nat) (h : a ≤ 0x3FFF) :
    map_lookup a = some ⟨0x0000, 0x3FFF, some (.rambank .bank1), some (.rambank .bank1)⟩ := by
  have h1 : decide (a ≤ 0x3FFF) = true := decide_eq_true h
  simp [map_lookup, ultim809_map, List.find?, MapEntry.contains, h1]

/-- Addresses 0x4000-0x7FFF decode to the bank2 entry. -/
theorem map_lookup_bank2 (a : Nat) (hlo : 0x4000 ≤ a) (hhi : a ≤ 0x7FFF) :
    map_lookup a = some ⟨0x4000, 0x7FFF, some (.rambank .bank2), some (.rambank .bank2)⟩ := by
  have h0 : decide (a ≤ 0x3FFF) = false := decide_eq_false (by omega)
  have h1 : decide (0x4000 ≤ a) = true := decide_eq_true hlo
  have h2 : decide (a ≤ 0x7FFF) = true := decide_eq_true hhi
  simp [map_lookup, ultim809_map, List.find?, MapEntry.contains, h0, h1, h2]

/-- Addresses 0x8000-0xBFFF decode to the bank3 entry. -/
theorem map_lookup_bank3 (a : Nat) (hlo : 0x8000 ≤ a) (hhi : a ≤ 0xBFFF) :
    map_lookup a = some ⟨0x8000, 0xBFFF, some (.rambank .bank3), some (.rambank .bank3)⟩ := by
  have h0 : decide (a ≤ 0x3FFF) = false := decide_eq_false (by omega)
  have h1 : decide (a ≤ 0x7FFF) = false := decide_eq_false (by omega)
  have h2 : decide (0x8000 ≤ a) = true := decide_eq_true hlo
  have h3 : decide (a ≤ 0xBFFF) = true := decide_eq_true hhi
  simp [map_lookup, ultim809_map, List.find?, MapEntry.contains, h0, h1, h2, h3]

/-- A read below 0x4000 delivers the byte bank1's window holds there. -/
theorem program_read_bank1 (m : Machine) (a : Nat) (h : a ≤ 0x3FFF) :
    (program_read m a).byte = m.ram[m.bank1.offset + a]? := by
  unfold program_read
  rw [map_lookup_bank1 a h]
  simp only [bank_read, Machine.bank, Nat.sub_zero]
  cases hx : m.ram[m.bank1.offset + a]? <;> rfl

/-- A read in 0x4000-0x7FFF delivers the byte bank2's window holds there. -/
theorem program_read_bank2 (m : Machine) (a : Nat) (hlo : 0x4000 ≤ a) (hhi : a ≤ 0x7FFF) :
    (program_read m a).byte = m.ram[m.bank2.offset + (a - 0x4000)]? := by
  unfold program_read
  rw [map_lookup_bank2 a hlo hhi]
  simp only [bank_read, Machine.bank]
  cases hx : m.ram[m.bank2.offset + (a - 0x4000)]? <;> rfl

/-- A read in 0x8000-0xBFFF of a byte that bank3's window holds. -/
theorem program_read_bank3 (m : Machine) (a v : Nat) (hlo : 0x8000 ≤ a) (hhi : a ≤ 0xBFFF)
    (hv : m.ram[m.bank3.offset + (a - 0x8000)]? = some v) :
    program_read m a = .value v m := by
  unfold program_read
  rw [map_lookup_bank3 a hlo hhi]
  simp only [bank_read, Machine.bank, hv]

/-- With at least one 16 KB page of RAM, `MACHINE_START` succeeds. -/
theorem MACHINE_START_succeeds (m0 : Machine) (h : 1 ≤ ram_get_size m0 / 0x4000) :
    MACHINE_START m0
      = some { m0 with
          bank1 := ⟨0, 1, 0, 0x4000, 0⟩,
          bank2 := ⟨0, 1, 0x4000, 0x4000, 0⟩,
          bank3 := ⟨0, ram_get_size m0 / 0x4000, 0, 0x4000, 0⟩ } := by
  have hpos : 0 < ram_get_size m0 / 0x4000 := h
  simp [MACHINE_START, memory_configure_bank, memory_set_bank, Machine.bank,
    Machine.setBank, ram_get_size] at hpos ⊢
  omega

/-- Whatever `MACHINE_START` returns is a started machine with bank3 on page 0
and the RAM and driver state it was given. -/
theorem MACHINE_START_started (m0 m : Machine) (h : MACHINE_START m0 = some m) :
    m.started ∧ m.bank3.cur = 0 ∧ m.ram = m0.ram ∧ m.state = m0.state := by
  by_cases hn : 1 ≤ ram_get_size m0 / 0x4000
  · rw [MACHINE_START_succeeds m0 hn] at h
    injection h with h
    subst h
    refine ⟨⟨⟨rfl, rfl, rfl, rfl, rfl, rfl⟩, ?_⟩, rfl, rfl, rfl⟩
    exact hn
  · exfalso
    have hz : m0.ram.length / 16384 = 0 := by
      unfold ram_get_size at hn
      omega
    simp [MACHINE_START, memory_configure_bank, memory_set_bank, Machine.bank,
      Machine.setBank, ram_get_size, hz] at h

/-- The RAM size is not touched by `MACHINE_START`. -/
theorem ram_get_size_machine_512k_started : ram_get_size machine_512k_started = 524288 :=
  ram_get_size_machine_512k

/-- Starting the 512K machine gives `machine_512k_started`. -/
theorem MACHINE_START_machine_512k : MACHINE_START machine_512k = some machine_512k_started := by
  rw [MACHINE_START_succeeds machine_512k (by rw [ram_get_size_machine_512k]; decide)]
  rw [ram_get_size_machine_512k]
  rfl

/-- The started 512K machine has the bank layout of `MACHINE_START`. -/
theorem machine_512k_started_started : machine_512k_started.started :=
  (MACHINE_START_started machine_512k machine_512k_started MACHINE_START_machine_512k).1

/-- On a started machine with a page count of at least one, `via_pa_w` selects
the page `data mod num_banks` of bank3 and changes nothing else. -/
theorem via_pa_w_eq (m : Machine) (value : Nat) (hconf : m.configured)
    (hbanks : 1 ≤ ram_get_size m / 16384) :
    via_pa_w m value
      = some { m with bank3 :=
          { m.bank3 with cur := value % 256 % (ram_get_size m / 16384) } } := by
  obtain ⟨_, _, hs, hn, _, _⟩ := hconf
  have hpage : value % 256 % (ram_get_size m / 16384) < ram_get_size m / 16384 :=
    Nat.mod_lt _ hbanks
  have hle : value % 256 % (ram_get_size m / 16384) ≤ value % 256 := Nat.mod_le _ _
  have h256 : value % 256 < 256 := Nat.mod_lt _ (by decide)
  have hnb : value % 256 % (ram_get_size m / 16384) % 256
      = value % 256 % (ram_get_size m / 16384) := Nat.mod_eq_of_lt (by omega)
  simp only [via_pa_w]
  rw [if_neg (by omega), hnb]
  simp only [memory_set_bank, Machine.bank, Machine.setBank]
  rw [if_pos ⟨by omega, by omega⟩]

/-- C1: for every RAM size with numBanks = ramSize / 16384 >= 1 and every 8-bit
value written to port A, `via_pa_w` selects bank3 page (value mod numBanks),
which is below numBanks, and a subsequent read through bank3's window at offset
o (o < 16384) returns the RAM byte at index page * 16384 + o. -/
theorem via_pa_w_selects_page (m : Machine) (value o : Nat)
    (hconf : m.configured) (hbanks : 1 ≤ ram_get_size m / 16384)
    (hvalue : value < 256) (ho : o < 16384) :
    value % (ram_get_size m / 16384) < ram_get_size m / 16384 ∧
    ∃ m1, via_pa_w m value = some m1 ∧
      m1.bank3.cur = value % (ram_get_size m / 16384) ∧
      m1.bank3.offset = value % (ram_get_size m / 16384) * 16384 ∧
      m1.ram = m.ram ∧
      m1.started ∧
      ∃ hin : value % (ram_get_size m / 16384) * 16384 + o < m.ram.length,
        program_read m1 (0x8000 + o)
          = .value (m.ram[value % (ram_get_size m / 16384) * 16384 + o]) m1 := by
  have hpage : value % (ram_get_size m / 16384) < ram_get_size m / 16384 :=
    Nat.mod_lt _ hbanks
  have hin : value % (ram_get_size m / 16384) * 16384 + o < m.ram.length := by
    have hdiv := Nat.div_mul_le_self (ram_get_size m) 16384
    unfold ram_get_size at hdiv hpage ⊢
    omega
  have heq := via_pa_w_eq m value hconf hbanks
  rw [Nat.mod_eq_of_lt hvalue] at heq
  obtain ⟨hb1, hb2, hs, hn, hbase, hstride⟩ := hconf
  have hoff : ({ m with bank3 :=
      { m.bank3 with cur := value % (ram_get_size m / 16384) } } : Machine).bank3.offset
      = value % (ram_get_size m / 16384) * 16384 := by
    simp only [Bank.offset, hbase, hstride, hs]
    omega
  refine ⟨hpage, _, heq, rfl, hoff, rfl, ⟨⟨hb1, hb2, hs, hn, hbase, hstride⟩, ?_⟩, hin, ?_⟩
  · show value % (ram_get_size m / 16384) < m.bank3.numentries
    rw [hn]
    exact hpage
  · apply program_read_bank3 _ _ _ (by omega) (by omega)
    rw [hoff]
    have hidx : value % (ram_get_size m / 16384) * 16384 + (0x8000 + o - 0x8000)
        = value % (ram_get_size m / 16384) * 16384 + o := by omega
    rw [hidx]
    exact List.getElem?_eq_getElem hin

/-- C1 on the started 512K machine: numBanks is 32 and the value 35 selects
page 3. -/
theorem via_pa_w_selects_page_witness :
    machine_512k_started.configured ∧
    1 ≤ ram_get_size machine_512k_started / 16384 ∧
    35 < 256 ∧ 5 < 16384 ∧
    ram_get_size machine_512k_started / 16384 = 32 ∧
    ∃ m1, via_pa_w machine_512k_started 35 = some m1 ∧ m1.bank3.cur = 3 := by
  have hsize := ram_get_size_machine_512k_started
  have hn : 1 ≤ ram_get_size machine_512k_started / 16384 := by rw [hsize]; decide
  obtain ⟨_, m1, h1, h2, _⟩ :=
    via_pa_w_selects_page machine_512k_started 35 5 machine_512k_started_started.1 hn
      (by decide) (by decide)
  refine ⟨machine_512k_started_started.1, hn, by decide, by decide, by rw [hsize], m1, h1, ?_⟩
  rw [h2, hsize]

/-- C9: on every started machine and for every value, `via_pa_w` changes only
bank3's page: bank1 stays mapped to RAM offset 0x0000 and bank2 to 0x4000, the
RAM contents (and driver state, output) are unchanged, and a read of any
address in 0x0000-0x3FFF or 0x4000-0x7FFF returns the same byte before and
after the call, namely the RAM byte at that address. -/
theorem via_pa_w_frame (m : Machine) (value : Nat) (hstart : m.started) :
    ∃ m1, via_pa_w m value = some m1 ∧
      m1.bank1 = m.bank1 ∧ m1.bank2 = m.bank2 ∧
      m1.bank1.offset = 0x0000 ∧ m1.bank2.offset = 0x4000 ∧
      m1.ram = m.ram ∧ m1.state = m.state ∧ m1.stdout = m.stdout ∧
      (∀ a : Nat, a ≤ 0x7FFF → (program_read m1 a).byte = (program_read m a).byte) ∧
      (∀ a : Nat, a ≤ 0x7FFF → (program_read m1 a).byte = m.ram[a]?) := by
  obtain ⟨hconf, hcur⟩ := hstart
  have hbanks : 1 ≤ ram_get_size m / 16384 := by
    have hn := hconf.2.2.2.1
    omega
  have heq := via_pa_w_eq m value hconf hbanks
  obtain ⟨hb1, hb2, _, _, _, _⟩ := hconf
  have ho1 : m.bank1.offset = 0 := by rw [hb1]; rfl
  have ho2 : m.bank2.offset = 0x4000 := by rw [hb2]; rfl
  have hread : ∀ (m2 : Machine), m2.bank1 = m.bank1 → m2.bank2 = m.bank2 → m2.ram = m.ram →
      ∀ a : Nat, a ≤ 0x7FFF → (program_read m2 a).byte = m.ram[a]? := by
    intro m2 e1 e2 er a ha
    by_cases hlow : a ≤ 0x3FFF
    · rw [program_read_bank1 m2 a hlow, e1, er, ho1, Nat.zero_add]
    · rw [program_read_bank2 m2 a (by omega) ha, e2, er, ho2]
      have hidx : 0x4000 + (a - 0x4000) = a := by omega
      rw [hidx]
  refine ⟨_, heq, rfl, rfl, ho1, ho2, rfl, rfl, rfl, ?_, ?_⟩
  · intro a ha
    rw [hread m rfl rfl rfl a ha]
    apply hread <;> first | rfl | exact ha
  · intro a ha
    apply hread <;> first | rfl | exact ha

/-- C9 on the started 512K machine, value 35. -/
theorem via_pa_w_frame_witness :
    machine_512k_started.started ∧
    ∃ m1, via_pa_w machine_512k_started 35 = some m1 ∧
      m1.bank1 = machine_512k_started.bank1 ∧ m1.bank2 = machine_512k_started.bank2 ∧
      m1.ram = machine_512k_started.ram := by
  obtain ⟨m1, h1, h2, h3, _, _, h4, _⟩ :=
    via_pa_w_frame machine_512k_started 35 machine_512k_started_started
  exact ⟨machine_512k_started_started, m1, h1, h2, h3, h4⟩

/-! ## The started layout is kept -/

/-- A machine with the banks and the RAM size of a started machine is
started. -/
theorem started_of_same_layout (m m1 : Machine) (h : m.started)
    (e1 : m1.bank1 = m.bank1) (e2 : m1.bank2 = m.bank2) (e3 : m1.bank3 = m.bank3)
    (el : m1.ram.length = m.ram.length) : m1.started := by
  obtain ⟨⟨hb1, hb2, hs, hn, hbase, hstride⟩, hcur⟩ := h
  unfold Machine.started Machine.configured ram_get_size at *
  rw [e1, e2, e3, el]
  exact ⟨⟨hb1, hb2, hs, hn, hbase, hstride⟩, hcur⟩

/-- A completed cartridge load, a write through a bank and a diagnostic write
keep a machine started. -/
theorem started_kept (m : Machine) (h : m.started) :
    (∀ (image : List Nat) (code : image_init_result) (m1 : Machine),
      ultim809_cart m image = .ok (code, m1) → m1.started) ∧
    (∀ (t : BankTag) (offset data : Nat) (m1 : Machine),
      bank_write m t offset data = some m1 → m1.started) ∧
    (∀ data : Nat, (debug_print_byte_hex m data).started) := by
  refine ⟨?_, ?_, ?_⟩
  · intro image code m1 hload
    unfold ultim809_cart at hload
    split at hload
    · exact Outcome.noConfusion hload
    · rename_i ram1 hcopy
      injection hload with hload
      injection hload with _ hm
      subst hm
      exact started_of_same_layout m _ h rfl rfl rfl (memcpy_length image m.ram ram1 0x100 hcopy)
  · intro t offset data m1 hw
    unfold bank_write at hw
    split at hw
    · injection hw with hw
      subst hw
      exact started_of_same_layout m _ h rfl rfl rfl (List.length_set _ _ _)
    · exact absurd hw (by simp)
  · intro data
    exact started_of_same_layout m _ h rfl rfl rfl rfl

end Ultim809
